import Mathlib

/-!
# Verification of the asynchronous ledger-submission pipeline

This file embeds, in Lean 4, the core of a ledger-backed certificate
registry: a durable Job Store of submission jobs, a retrying submission
worker, and the HTTP router handlers of `src/assets.router.ts`.

The Job Store, RetryPolicy and Submission Worker are not present in the
repository's visible sources (only their callers are); their definitions
below are modelled from the specification (sections 3, 4.1, 4.2, 4.3, 4.4)
and are marked as such.  The router handlers are translated directly from
`src/assets.router.ts`.
-/

namespace CertPipeline

/-- Lifecycle state of a submission job (spec section 3, SubmissionJob). -/
inductive JobState
  | queued
  | active
  | completed
  | failed
deriving DecidableEq, Repr

/-- Modelled from the spec: a SubmissionJob record (spec section 3).  The
missing Job Store implementation owns these records.  `eligibleAt` realises
the backoff-delay eligibility of `requeueWithBackoff` (spec section 4.1),
`enqueuedAt`/`updatedAt` are the two timestamps required by the spec. -/
structure SubmissionJob where
  id : Nat
  identity : String
  func : String
  args : List String
  state : JobState
  attempts : Nat
  lastError : Option String
  txId : Option String
  payload : Option String
  enqueuedAt : Nat
  eligibleAt : Nat
  updatedAt : Nat
deriving DecidableEq, Repr

/-- Modelled from the spec: the durable Job Store (spec section 4.1), with a
wall clock `now` used for timestamps and backoff eligibility. -/
structure JobStore where
  jobs : List SubmissionJob
  nextId : Nat
  now : Nat
deriving DecidableEq, Repr

/-- Job Store error taxonomy (spec section 7). -/
inductive StoreError
  | jobNotFound
  | invalidTransition
deriving DecidableEq, Repr

def emptyStore : JobStore := { jobs := [], nextId := 0, now := 0 }

/-- Lookup of a job by id (spec section 4.1, `get`). -/
def findJob (s : JobStore) (i : Nat) : Option SubmissionJob :=
  s.jobs.find? (fun x => decide (x.id = i))

/-- Point update of the job with the given id. -/
def updateJob (i : Nat) (f : SubmissionJob → SubmissionJob)
    (l : List SubmissionJob) : List SubmissionJob :=
  l.map (fun x => if x.id = i then f x else x)

/-- The fresh job record created by `enqueue`. -/
def freshJob (identity func : String) (args : List String) (s : JobStore) :
    SubmissionJob :=
  { id := s.nextId, identity := identity, func := func, args := args
    state := .queued, attempts := 0, lastError := none
    txId := none, payload := none
    enqueuedAt := s.now, eligibleAt := s.now, updatedAt := s.now }

/-- Modelled from the spec: `enqueue` (spec section 4.1) assigns a fresh
unique id and initial state `queued` with attempt count 0. -/
def enqueue (identity func : String) (args : List String) (s : JobStore) :
    Nat × JobStore :=
  (s.nextId,
   { s with jobs := s.jobs ++ [freshJob identity func args s]
            nextId := s.nextId + 1 })

/-- A job is claimable when it is `queued` and its backoff delay has elapsed
(spec sections 4.1 and 5: eligibility is a wall-clock comparison). -/
def claimable (now : Nat) (j : SubmissionJob) : Bool :=
  decide (j.state = JobState.queued ∧ j.eligibleAt ≤ now)

/-- The record update performed by a successful claim. -/
def activate (now : Nat) (j : SubmissionJob) : SubmissionJob :=
  { j with state := .active, updatedAt := now }

/-- Modelled from the spec: `claimNext` (spec section 4.1) atomically
transitions exactly one claimable `queued` job to `active` and returns it. -/
def claimNext (s : JobStore) : Option SubmissionJob × JobStore :=
  match s.jobs.find? (claimable s.now) with
  | none => (none, s)
  | some j =>
    (some (activate s.now j),
     { s with jobs := updateJob j.id (fun _ => activate s.now j) s.jobs })

/-- The record update performed by `completeWithResult`. -/
def completeResultUpd (t payload : String) (now : Nat) (x : SubmissionJob) :
    SubmissionJob :=
  { x with state := .completed, txId := some t, payload := some payload
           updatedAt := now }

/-- The record update performed by `completeWithError`. -/
def completeErrorUpd (e : String) (now : Nat) (x : SubmissionJob) :
    SubmissionJob :=
  { x with state := .failed, lastError := some e, updatedAt := now }

/-- The record update performed by `requeueWithBackoff`. -/
def requeueUpd (eligible now : Nat) (x : SubmissionJob) : SubmissionJob :=
  { x with state := .queued, attempts := x.attempts + 1
           eligibleAt := eligible, updatedAt := now }

/-- Modelled from the spec: `completeWithResult` (spec section 4.1)
transitions `active → completed`; a second call with the same result is a
no-op, not an error; other misuse signals `InvalidTransition`. -/
def completeWithResult (i : Nat) (t payload : String) (s : JobStore) :
    Except StoreError JobStore :=
  match findJob s i with
  | none => .error .jobNotFound
  | some j =>
    match j.state with
    | .active =>
        .ok { s with jobs := updateJob i (completeResultUpd t payload s.now) s.jobs }
    | .completed =>
        if j.txId = some t ∧ j.payload = some payload then .ok s
        else .error .invalidTransition
    | _ => .error .invalidTransition

/-- Modelled from the spec: `completeWithError` (spec section 4.1)
transitions `active → failed`, retaining the error detail; idempotent on a
repeat call with the identical error (spec section 8). -/
def completeWithError (i : Nat) (e : String) (s : JobStore) :
    Except StoreError JobStore :=
  match findJob s i with
  | none => .error .jobNotFound
  | some j =>
    match j.state with
    | .active =>
        .ok { s with jobs := updateJob i (completeErrorUpd e s.now) s.jobs }
    | .failed =>
        if j.lastError = some e then .ok s
        else .error .invalidTransition
    | _ => .error .invalidTransition

/-- Modelled from the spec: `requeueWithBackoff` (spec section 4.1)
transitions `active → queued`, increments the attempt count, and makes the
job ineligible for `claimNext` until the delay elapses. -/
def requeueWithBackoff (i : Nat) (delay : Nat) (s : JobStore) :
    Except StoreError JobStore :=
  match findJob s i with
  | none => .error .jobNotFound
  | some j =>
    match j.state with
    | .active =>
        .ok { s with jobs := updateJob i (requeueUpd (s.now + delay) s.now) s.jobs }
    | _ => .error .invalidTransition

/-- Modelled from the spec: the read-only status projection of a job
(spec section 4.4, Job Status API). -/
structure JobStatusView where
  state : JobState
  attempts : Nat
  txId : Option String
  payload : Option String
  errorDetail : Option String
deriving DecidableEq, Repr

/-- `status(jobId)` read-only projection (spec section 4.4). -/
def statusOf (s : JobStore) (i : Nat) : Option JobStatusView :=
  (findJob s i).map (fun j =>
    { state := j.state, attempts := j.attempts, txId := j.txId
      payload := j.payload, errorDetail := j.lastError })

/-- The raw Job Store operations, for reasoning about arbitrary operation
sequences applied to a store (spec section 4.1). -/
inductive StoreOp
  | enqueueOp (identity func : String) (args : List String)
  | claimOp
  | completeResultOp (i : Nat) (t payload : String)
  | completeErrorOp (i : Nat) (e : String)
  | requeueOp (i : Nat) (delay : Nat)
  | tickOp (n : Nat)
deriving DecidableEq, Repr

/-- On a store error the store itself is unchanged (the error is signalled
to the caller); this discharges the `Except` for trace reasoning. -/
def exceptD (s : JobStore) : Except StoreError JobStore → JobStore
  | .ok s' => s'
  | .error _ => s

/-- Apply one raw Job Store operation; failed operations leave the store
unchanged (spec section 4.1: they signal errors, they do not transition). -/
def applyStoreOp : StoreOp → JobStore → JobStore
  | .enqueueOp identity func args, s => (enqueue identity func args s).2
  | .claimOp, s => (claimNext s).2
  | .completeResultOp i t payload, s => exceptD s (completeWithResult i t payload s)
  | .completeErrorOp i e, s => exceptD s (completeWithError i e s)
  | .requeueOp i d, s => exceptD s (requeueWithBackoff i d s)
  | .tickOp n, s => { s with now := s.now + n }

/-- The sequence of observations of job `i` (its lookup result) along a
trace of Job Store operations, starting from `s0`. -/
def jobTrace (s0 : JobStore) (ops : List StoreOp) (i : Nat) :
    List (Option SubmissionJob) :=
  match ops with
  | [] => [findJob s0 i]
  | op :: rest => findJob s0 i :: jobTrace (applyStoreOp op s0) rest i

/-- Well-formedness of a store: job ids are distinct and below `nextId`. -/
def WFStore (s : JobStore) : Prop :=
  (s.jobs.map (fun j => j.id)).Nodup ∧ ∀ j ∈ s.jobs, j.id < s.nextId

/-- One admissible lifecycle step of a single job (spec section 3 invariant):
the state is unchanged, or `queued → active`, or the retry re-entry
`active → queued` incrementing the attempt count, or `active` to a terminal
state; the attempt count changes exactly on the retry re-entry. -/
def stateStep (j j' : SubmissionJob) : Prop :=
  (j'.state = j.state ∧ j'.attempts = j.attempts)
  ∨ (j.state = .queued ∧ j'.state = .active ∧ j'.attempts = j.attempts)
  ∨ (j.state = .active ∧ j'.state = .queued ∧ j'.attempts = j.attempts + 1)
  ∨ (j.state = .active ∧ (j'.state = .completed ∨ j'.state = .failed)
      ∧ j'.attempts = j.attempts)

/-- One admissible step of the observation of a job along a trace: an
absent job stays absent or appears freshly `queued` with 0 attempts; a
present job is never removed and takes one admissible lifecycle step. -/
def obsStep : Option SubmissionJob → Option SubmissionJob → Prop
  | none, none => True
  | none, some j => j.state = .queued ∧ j.attempts = 0
  | some _, none => False
  | some j, some j' => stateStep j j'

/-- Modelled from the spec: the RetryPolicy record (spec section 3). -/
structure RetryPolicy where
  maximumAttempts : Nat
  baseDelay : Nat
  multiplier : Nat
  cap : Nat
  jitterBound : Nat
deriving DecidableEq, Repr

/-- Backoff delay before jitter (spec section 4.3):
`base * multiplier ^ attempt` clamped to the cap. -/
def backoffDelay (p : RetryPolicy) (attempt : Nat) : Nat :=
  min (p.baseDelay * p.multiplier ^ attempt) p.cap

/-- Outcome of a Ledger Gateway `submit` call as seen by the worker
(spec section 4.2 failure modes plus success). -/
inductive SubmitOutcome
  | success (t payload : String)
  | endorsementConflict
  | orderingTimeout
  | chaincodeRejected
  | connectivityError
deriving DecidableEq, Repr

/-- Error classification (spec sections 4.2 and 9): retryable categories. -/
def isRetryable : SubmitOutcome → Bool
  | .endorsementConflict => true
  | .orderingTimeout => true
  | .connectivityError => true
  | _ => false

/-- Error classification: the single terminal error class of the Gateway. -/
def isTerminalError : SubmitOutcome → Bool
  | .chaincodeRejected => true
  | _ => false

/-- The classified error detail persisted for a failure outcome. -/
def classifyError : SubmitOutcome → String
  | .success _ _ => "Success"
  | .endorsementConflict => "EndorsementConflict"
  | .orderingTimeout => "OrderingTimeout"
  | .chaincodeRejected => "ChaincodeRejected"
  | .connectivityError => "ConnectivityError"

/-- Modelled from the spec: one processing cycle of a Submission Worker
(spec section 4.3): claim a job; on success `completeWithResult`; on a
retryable failure below the attempt maximum requeue with backoff delay plus
jitter; on a terminal failure or attempt exhaustion `completeWithError`
with the classified error.  `out` is the submit outcome the ledger network
returns for this cycle and `jitter` the drawn jitter value. -/
def workerStep (p : RetryPolicy) (out : SubmitOutcome) (jitter : Nat)
    (s : JobStore) : JobStore :=
  match claimNext s with
  | (none, _) => s
  | (some j, s1) =>
    match out with
    | .success t payload => exceptD s1 (completeWithResult j.id t payload s1)
    | _ =>
      if isRetryable out && decide (j.attempts < p.maximumAttempts) then
        exceptD s1 (requeueWithBackoff j.id
          (backoffDelay p j.attempts + min jitter p.jitterBound) s1)
      else
        exceptD s1 (completeWithError j.id (classifyError out) s1)

/-- System-level operations: producers enqueue, workers run processing
cycles, and the wall clock advances (spec sections 2 and 4.3). -/
inductive SysOp
  | enq (identity func : String) (args : List String)
  | work (out : SubmitOutcome) (jitter : Nat)
  | tick (n : Nat)
deriving DecidableEq, Repr

def applySysOp (p : RetryPolicy) : SysOp → JobStore → JobStore
  | .enq identity func args, s => (enqueue identity func args s).2
  | .work out jitter, s => workerStep p out jitter s
  | .tick n, s => { s with now := s.now + n }

/-- The reachable store after a sequence of system operations from the
empty store, under retry policy `p`. -/
def runSys (p : RetryPolicy) (ops : List SysOp) : JobStore :=
  ops.foldl (fun s op => applySysOp p op s) emptyStore

/-- Attempt counts are bounded by the policy maximum (spec section 8). -/
def AttemptsBounded (p : RetryPolicy) (s : JobStore) : Prop :=
  ∀ j ∈ s.jobs, j.attempts ≤ p.maximumAttempts

/-- A non-failed job carries no stored error detail (spec section 7:
retryable errors stay invisible to the job's external status). -/
def ErrorsOnlyWhenFailed (s : JobStore) : Prop :=
  ∀ j ∈ s.jobs, j.lastError = none ∨ j.state = .failed

end CertPipeline

namespace CertRouter

open CertPipeline

/-- A JSON-like value for request bodies: the fields relevant to the
router's express-validator checks are strings and numbers. -/
inductive JVal
  | jstr (s : String)
  | jnum (n : Int)
deriving DecidableEq, Repr

/-- A request body that parsed as a JSON object: its field list. -/
abbrev ReqBody := List (String × JVal)

/-- Parsed JSON values for responses (`JSON.parse` results). -/
inductive Json
  | strv (s : String)
  | numv (n : Int)
  | arr (xs : List Json)
  | objv (fields : List (String × Json))

/-- Outcome of `evatuateTransaction` (src/fabric.ts is outside the visible
sources): it returns the evaluated bytes, throws `AssetNotFoundError`, or
throws some other error. -/
inductive EvalOutcome
  | ok (data : String)
  | assetNotFound
  | failure
deriving DecidableEq, Repr

/-- HTTP responses produced by the router handlers of
`src/assets.router.ts`: 200 with a JSON body, 200 with the Allow header of
the options handler, 202 Accepted with a job id, 400 Bad Request with
reason VALIDATION_ERROR, 404 Not Found, 500 Internal Server Error. -/
inductive HttpResp
  | okJson (body : Json)
  | okAllow (allow : String)
  | accepted (jobId : String)
  | badRequestValidation
  | notFound
  | internalError

def HttpResp.statusCode : HttpResp → Nat
  | .okJson _ => 200
  | .okAllow _ => 200
  | .accepted _ => 202
  | .badRequestValidation => 400
  | .notFound => 404
  | .internalError => 500

/-- A job placed on the submit queue by `addSubmitTransactionJob`. -/
structure QueuedJob where
  mspId : String
  transactionName : String
  transactionArgs : List JVal
deriving DecidableEq, Repr

/-- The application state the router can reach through `req.app.locals`:
the submit job queue (`app.locals.jobq`) and the id counter it draws fresh
job ids from. -/
structure AppLocals where
  jobq : List QueuedJob
  nextJobId : Nat
deriving DecidableEq, Repr

/-- Modelled from the spec: `addSubmitTransactionJob` (src/jobs.ts is
outside the visible sources) enqueues a submission job and returns its
fresh job id (spec section 4.1, `enqueue`). -/
def addSubmitTransactionJob (st : AppLocals) (mspId transactionName : String)
    (args : List JVal) : String × AppLocals :=
  (toString st.nextJobId,
   { jobq := st.jobq ++ [{ mspId := mspId, transactionName := transactionName
                           transactionArgs := args }]
     nextJobId := st.nextJobId + 1 })

/-- GET `/` of `src/assets.router.ts` (lines 36–56): evaluate
`GetAllCertificates`; an empty byte buffer yields the empty array without
parsing; any thrown error is answered with 500. -/
def getAllAssetsHandler (parse : String → Option Json) (ev : EvalOutcome)
    (st : AppLocals) : HttpResp × AppLocals :=
  match ev with
  | .ok data =>
    if data.length > 0 then
      match parse data with
      | some assets => (.okJson assets, st)
      | none => (.internalError, st)
    else (.okJson (.arr []), st)
  | .assetNotFound => (.internalError, st)
  | .failure => (.internalError, st)

/-- GET `/:certificateHash` of `src/assets.router.ts` (lines 174–212):
evaluate `ValidateCertificate` and parse the result; `AssetNotFoundError`
is answered with 404, any other thrown error with 500. -/
def readCertificateHandler (parse : String → Option Json) (ev : EvalOutcome)
    (st : AppLocals) : HttpResp × AppLocals :=
  match ev with
  | .ok data =>
    match parse data with
    | some certificate => (.okJson certificate, st)
    | none => (.internalError, st)
  | .assetNotFound => (.notFound, st)
  | .failure => (.internalError, st)

/-- OPTIONS `/:certificateHash` of `src/assets.router.ts` (lines 124–172):
evaluate `CertificateExists`; `"true"` yields 200 with the Allow header,
anything else 404; any thrown error (this handler has no
`AssetNotFoundError` case) is answered with 500. -/
def certificateOptionsHandler (ev : EvalOutcome) (st : AppLocals) :
    HttpResp × AppLocals :=
  match ev with
  | .ok data =>
    if data = "true" then
      (.okAllow "DELETE,GET,OPTIONS,PATCH,PUT", st)
    else (.notFound, st)
  | .assetNotFound => (.internalError, st)
  | .failure => (.internalError, st)

/-- Digits-only check on a character list. -/
def digitChars (cs : List Char) : Bool :=
  !cs.isEmpty && cs.all (fun c => c.isDigit)

/-- validator.js `isNumeric` on the stringified field value: an optional
sign, then `([0-9]*[.])?[0-9]+`. -/
def isNumericStr (s : String) : Bool :=
  let cs := s.data
  let cs := match cs with
            | c :: rest => if c = '+' ∨ c = '-' then rest else c :: rest
            | [] => []
  match cs.splitOn '.' with
  | [a] => digitChars a
  | [a, b] => (a.isEmpty || digitChars a) && digitChars b
  | _ => false

/-- The stringified value express-validator hands to validator.js for a
body field: missing fields behave as the empty string. -/
def fieldStr (fields : ReqBody) (k : String) : String :=
  match (fields.find? (fun kv => decide (kv.1 = k))).map (fun kv => kv.2) with
  | some (JVal.jstr s) => s
  | some (JVal.jnum n) => toString n
  | none => ""

/-- `.notEmpty()` on a body field. -/
def notEmptyField (fields : ReqBody) (k : String) : Bool :=
  fieldStr fields k != ""

/-- `.isNumeric()` on a body field. -/
def numericField (fields : ReqBody) (k : String) : Bool :=
  isNumericStr (fieldStr fields k)

/-- The raw field value forwarded to `addSubmitTransactionJob` (the router
passes `req.body.<field>` unchanged). -/
def fieldVal (fields : ReqBody) (k : String) : JVal :=
  ((fields.find? (fun kv => decide (kv.1 = k))).map (fun kv => kv.2)).getD (.jstr "")

/-- The declared validation chain of POST `/` in `src/assets.router.ts`
(lines 58–69): the body must be an object, all nine certificate fields must
be non-empty, and StudentId and CourseHours must also be numeric. -/
def validateCreateBody (b : Option ReqBody) : Bool :=
  match b with
  | none => false
  | some fields =>
    notEmptyField fields "CertificateHash" &&
    notEmptyField fields "CertificateDate" &&
    (numericField fields "StudentId" && notEmptyField fields "StudentId") &&
    notEmptyField fields "StudentName" &&
    notEmptyField fields "StudentCPF" &&
    notEmptyField fields "CourseName" &&
    (numericField fields "CourseHours" && notEmptyField fields "CourseHours") &&
    notEmptyField fields "CourseCompletionDate" &&
    notEmptyField fields "InstitutionName"

/-- The ordered argument list the POST handler forwards (lines 89–102). -/
def certArgs (fields : ReqBody) : List JVal :=
  [fieldVal fields "CertificateHash", fieldVal fields "CertificateDate",
   fieldVal fields "StudentId", fieldVal fields "StudentName",
   fieldVal fields "StudentCPF", fieldVal fields "CourseName",
   fieldVal fields "CourseHours", fieldVal fields "CourseCompletionDate",
   fieldVal fields "InstitutionName"]

/-- POST `/` of `src/assets.router.ts` (lines 58–122): on any validation
error answer 400 with reason VALIDATION_ERROR and enqueue nothing;
otherwise enqueue an `IssueCertificate` job and answer 202 Accepted with
its job id. -/
def createCertificateHandler (mspId : String) (b : Option ReqBody)
    (st : AppLocals) : HttpResp × AppLocals :=
  match b with
  | none => (.badRequestValidation, st)
  | some fields =>
    if validateCreateBody (some fields) then
      let r := addSubmitTransactionJob st mspId "IssueCertificate" (certArgs fields)
      (.accepted r.1, r.2)
    else (.badRequestValidation, st)

end CertRouter

namespace CertPipeline

theorem obsStep_refl (o : Option SubmissionJob) : obsStep o o := by
  cases o with
  | none => trivial
  | some j => exact Or.inl ⟨rfl, rfl⟩

theorem find?_map_pres (g : SubmissionJob → SubmissionJob)
    (hg : ∀ x, (g x).id = x.id) (l : List SubmissionJob) (i : Nat) :
    (l.map g).find? (fun x => decide (x.id = i))
      = (l.find? (fun x => decide (x.id = i))).map g := by
  induction l with
  | nil => rfl
  | cons x xs ih =>
    rw [List.map_cons, List.find?_cons, List.find?_cons]
    by_cases h : x.id = i
    · have h1 : decide ((g x).id = i) = true := by simp [hg x, h]
      have h2 : decide (x.id = i) = true := by simp [h]
      rw [h1, h2]
      rfl
    · have h1 : decide ((g x).id = i) = false := by simp [hg x, h]
      have h2 : decide (x.id = i) = false := by simp [h]
      rw [h1, h2]
      exact ih

theorem updateJob_id_pres (tid : Nat) (f : SubmissionJob → SubmissionJob)
    (hf : ∀ x, x.id = tid → (f x).id = tid) (x : SubmissionJob) :
    (if x.id = tid then f x else x).id = x.id := by
  by_cases h : x.id = tid
  · simp [h, hf x h]
  · simp [h]

theorem find?_updateJob (tid : Nat) (f : SubmissionJob → SubmissionJob)
    (hf : ∀ x, x.id = tid → (f x).id = tid) (l : List SubmissionJob) (i : Nat) :
    (updateJob tid f l).find? (fun x => decide (x.id = i))
      = (l.find? (fun x => decide (x.id = i))).map
          (fun x => if x.id = tid then f x else x) :=
  find?_map_pres _ (updateJob_id_pres tid f hf) l i

theorem mem_updateJob {tid : Nat} {f : SubmissionJob → SubmissionJob}
    {l : List SubmissionJob} {y : SubmissionJob} (hy : y ∈ updateJob tid f l) :
    ∃ x, x ∈ l ∧ y = if x.id = tid then f x else x := by
  unfold updateJob at hy
  rcases List.mem_map.mp hy with ⟨x, hx, he⟩
  exact ⟨x, hx, he.symm⟩

theorem mapId_updateJob (tid : Nat) (f : SubmissionJob → SubmissionJob)
    (hf : ∀ x, x.id = tid → (f x).id = tid) (l : List SubmissionJob) :
    (updateJob tid f l).map (fun x => x.id) = l.map (fun x => x.id) := by
  unfold updateJob
  rw [List.map_map]
  exact List.map_congr_left (fun x _ => updateJob_id_pres tid f hf x)

theorem id_inj_of_nodup (l : List SubmissionJob)
    (hn : (l.map (fun x => x.id)).Nodup) (x y : SubmissionJob)
    (hx : x ∈ l) (hy : y ∈ l) (he : x.id = y.id) : x = y := by
  induction l with
  | nil => cases hx
  | cons a as ih =>
    simp only [List.map_cons, List.nodup_cons] at hn
    rcases List.mem_cons.mp hx with rfl | hx2
    · rcases List.mem_cons.mp hy with rfl | hy2
      · rfl
      · exact absurd (he ▸ List.mem_map_of_mem (fun z => z.id) hy2) hn.1
    · rcases List.mem_cons.mp hy with rfl | hy2
      · exact absurd (he ▸ List.mem_map_of_mem (fun z => z.id) hx2) hn.1
      · exact ih hn.2 hx2 hy2

theorem find?_eq_of_mem_nodup (l : List SubmissionJob) (j : SubmissionJob)
    (hn : (l.map (fun x => x.id)).Nodup) (hj : j ∈ l) :
    l.find? (fun x => decide (x.id = j.id)) = some j := by
  cases hf : l.find? (fun x => decide (x.id = j.id)) with
  | none =>
    have : ∃ x, x ∈ l ∧ (fun x : SubmissionJob => decide (x.id = j.id)) x := ⟨j, hj, by simp⟩
    have h2 := List.find?_isSome.mpr this
    rw [hf] at h2
    cases h2
  | some x =>
    have h0 := List.find?_some hf
    have h1 : x.id = j.id := by simpa using h0
    have h2 : x ∈ l := List.mem_of_find?_eq_some hf
    rw [id_inj_of_nodup l hn x j h2 hj h1]

theorem claimable_of_find (s : JobStore) (j : SubmissionJob)
    (h : s.jobs.find? (claimable s.now) = some j) :
    j.state = .queued ∧ j.eligibleAt ≤ s.now ∧ j ∈ s.jobs := by
  have h1 := List.find?_some h
  have h2 := List.mem_of_find?_eq_some h
  simp only [claimable, decide_eq_true_eq] at h1
  exact ⟨h1.1, h1.2, h2⟩

theorem claimNext_eq_none (s : JobStore)
    (h : s.jobs.find? (claimable s.now) = none) : claimNext s = (none, s) := by
  unfold claimNext
  rw [h]

theorem claimNext_eq_some (s : JobStore) (j : SubmissionJob)
    (h : s.jobs.find? (claimable s.now) = some j) :
    claimNext s = (some (activate s.now j),
      { s with jobs := updateJob j.id (fun _ => activate s.now j) s.jobs }) := by
  unfold claimNext
  rw [h]

theorem claimNext_spec (s : JobStore) (j1 : SubmissionJob) (s1 : JobStore)
    (h : claimNext s = (some j1, s1)) :
    ∃ j0, j0 ∈ s.jobs ∧ j0.state = .queued ∧ j0.eligibleAt ≤ s.now ∧
      j1 = activate s.now j0 ∧
      s1 = { s with jobs := updateJob j0.id (fun _ => j1) s.jobs } := by
  unfold claimNext at h
  cases hf : s.jobs.find? (claimable s.now) with
  | none =>
    rw [hf] at h
    exact absurd (congrArg Prod.fst h) (by simp)
  | some j0 =>
    rw [hf] at h
    obtain ⟨hq, he, hm⟩ := claimable_of_find s j0 hf
    have ha := congrArg Prod.fst h
    have hb := congrArg Prod.snd h
    simp only at ha hb
    have hj1 : j1 = activate s.now j0 := (Option.some.inj ha).symm
    refine ⟨j0, hm, hq, he, hj1, ?_⟩
    rw [hj1, ← hb]

theorem completeWithResult_store (tid : Nat) (t payload : String) (s : JobStore) :
    exceptD s (completeWithResult tid t payload s) = s
    ∨ exceptD s (completeWithResult tid t payload s)
        = { s with jobs := updateJob tid (completeResultUpd t payload s.now) s.jobs } := by
  cases hf : findJob s tid with
  | none =>
    left
    unfold completeWithResult
    simp [hf, exceptD]
  | some j =>
    cases hs : j.state with
    | active =>
      right
      unfold completeWithResult
      simp [hf, hs, exceptD]
    | completed =>
      left
      unfold completeWithResult
      by_cases hc : j.txId = some t ∧ j.payload = some payload <;>
        simp [hf, hs, hc, exceptD]
    | queued =>
      left
      unfold completeWithResult
      simp [hf, hs, exceptD]
    | failed =>
      left
      unfold completeWithResult
      simp [hf, hs, exceptD]

theorem completeWithError_store (tid : Nat) (e : String) (s : JobStore) :
    exceptD s (completeWithError tid e s) = s
    ∨ exceptD s (completeWithError tid e s)
        = { s with jobs := updateJob tid (completeErrorUpd e s.now) s.jobs } := by
  cases hf : findJob s tid with
  | none =>
    left
    unfold completeWithError
    simp [hf, exceptD]
  | some j =>
    cases hs : j.state with
    | active =>
      right
      unfold completeWithError
      simp [hf, hs, exceptD]
    | failed =>
      left
      unfold completeWithError
      by_cases hc : j.lastError = some e <;> simp [hf, hs, hc, exceptD]
    | queued =>
      left
      unfold completeWithError
      simp [hf, hs, exceptD]
    | completed =>
      left
      unfold completeWithError
      simp [hf, hs, exceptD]

theorem requeueWithBackoff_store (tid d : Nat) (s : JobStore) :
    exceptD s (requeueWithBackoff tid d s) = s
    ∨ exceptD s (requeueWithBackoff tid d s)
        = { s with jobs := updateJob tid (requeueUpd (s.now + d) s.now) s.jobs } := by
  cases hf : findJob s tid with
  | none =>
    left
    unfold requeueWithBackoff
    simp [hf, exceptD]
  | some j =>
    cases hs : j.state with
    | active =>
      right
      unfold requeueWithBackoff
      simp [hf, hs, exceptD]
    | queued =>
      left
      unfold requeueWithBackoff
      simp [hf, hs, exceptD]
    | completed =>
      left
      unfold requeueWithBackoff
      simp [hf, hs, exceptD]
    | failed =>
      left
      unfold requeueWithBackoff
      simp [hf, hs, exceptD]

theorem WFStore_update (s : JobStore) (tid : Nat)
    (f : SubmissionJob → SubmissionJob)
    (hf : ∀ x, x.id = tid → (f x).id = tid) (h : WFStore s) :
    WFStore { s with jobs := updateJob tid f s.jobs } := by
  constructor
  · show ((updateJob tid f s.jobs).map (fun x => x.id)).Nodup
    rw [mapId_updateJob tid f hf]
    exact h.1
  · intro y hy
    rcases mem_updateJob hy with ⟨x, hx, rfl⟩
    show (if x.id = tid then f x else x).id < s.nextId
    rw [updateJob_id_pres tid f hf x]
    exact h.2 x hx

theorem WFStore_append (s : JobStore) (j : SubmissionJob) (hid : j.id = s.nextId)
    (h : WFStore s) :
    WFStore { s with jobs := s.jobs ++ [j], nextId := s.nextId + 1 } := by
  constructor
  · show ((s.jobs ++ [j]).map (fun x => x.id)).Nodup
    rw [List.map_append, List.nodup_append]
    refine ⟨h.1, List.nodup_singleton _, ?_⟩
    intro a ha hb
    simp only [List.map_cons, List.map_nil, List.mem_singleton] at hb
    rcases List.mem_map.mp ha with ⟨x, hx, rfl⟩
    rw [hid] at hb
    have hlt := h.2 x hx
    rw [hb] at hlt
    exact lt_irrefl s.nextId hlt
  · intro y hy
    rcases List.mem_append.mp hy with hy | hy
    · exact Nat.lt_succ_of_lt (h.2 y hy)
    · simp only [List.mem_singleton] at hy
      rw [hy, hid]
      exact Nat.lt_succ_self s.nextId

theorem WFStore_enqueue (identity func : String) (args : List String)
    (s : JobStore) (h : WFStore s) : WFStore (enqueue identity func args s).2 :=
  WFStore_append s _ rfl h

theorem WFStore_apply (op : StoreOp) (s : JobStore) (h : WFStore s) :
    WFStore (applyStoreOp op s) := by
  cases op with
  | enqueueOp identity func args => exact WFStore_enqueue identity func args s h
  | claimOp =>
    show WFStore (claimNext s).2
    cases hf : s.jobs.find? (claimable s.now) with
    | none => rw [claimNext_eq_none s hf]; exact h
    | some j =>
      rw [claimNext_eq_some s j hf]
      exact WFStore_update s j.id (fun _ => activate s.now j) (fun x hx => hx ▸ rfl) h
  | completeResultOp tid t payload =>
    show WFStore (exceptD s (completeWithResult tid t payload s))
    rcases completeWithResult_store tid t payload s with hc | hc <;> rw [hc]
    · exact h
    · exact WFStore_update s tid _ (fun x hx => hx) h
  | completeErrorOp tid e =>
    show WFStore (exceptD s (completeWithError tid e s))
    rcases completeWithError_store tid e s with hc | hc <;> rw [hc]
    · exact h
    · exact WFStore_update s tid _ (fun x hx => hx) h
  | requeueOp tid d =>
    show WFStore (exceptD s (requeueWithBackoff tid d s))
    rcases requeueWithBackoff_store tid d s with hc | hc <;> rw [hc]
    · exact h
    · exact WFStore_update s tid _ (fun x hx => hx) h
  | tickOp n => exact h

theorem findJob_update (s : JobStore) (tid : Nat)
    (f : SubmissionJob → SubmissionJob)
    (hf : ∀ x, x.id = tid → (f x).id = tid) (i : Nat) :
    findJob { s with jobs := updateJob tid f s.jobs } i
      = (findJob s i).map (fun x => if x.id = tid then f x else x) :=
  find?_updateJob tid f hf s.jobs i

theorem findJob_some_id (s : JobStore) (i : Nat) (j : SubmissionJob)
    (h : findJob s i = some j) : j.id = i := by
  unfold findJob at h
  simpa using List.find?_some h

theorem findJob_some_mem (s : JobStore) (i : Nat) (j : SubmissionJob)
    (h : findJob s i = some j) : j ∈ s.jobs := by
  unfold findJob at h
  exact List.mem_of_find?_eq_some h

theorem findJob_exists (s : JobStore) (j : SubmissionJob) (hj : j ∈ s.jobs) :
    ∃ x, findJob s j.id = some x ∧ x.id = j.id := by
  cases hf : findJob s j.id with
  | none =>
    exfalso
    unfold findJob at hf
    have hex : ∃ x, x ∈ s.jobs ∧ (fun x : SubmissionJob => decide (x.id = j.id)) x :=
      ⟨j, hj, by simp⟩
    have h2 := List.find?_isSome.mpr hex
    rw [hf] at h2
    cases h2
  | some x => exact ⟨x, rfl, findJob_some_id s j.id x hf⟩

theorem findJob_eq_of_mem (s : JobStore) (j : SubmissionJob)
    (hn : (s.jobs.map (fun x => x.id)).Nodup) (hj : j ∈ s.jobs) :
    findJob s j.id = some j :=
  find?_eq_of_mem_nodup s.jobs j hn hj

theorem entries_eq_of_findJob (s : JobStore) (tid : Nat) (j : SubmissionJob)
    (hn : (s.jobs.map (fun x => x.id)).Nodup)
    (hf : findJob s tid = some j) (x : SubmissionJob) (hx : x ∈ s.jobs)
    (hid : x.id = tid) : x = j :=
  id_inj_of_nodup s.jobs hn x j hx (findJob_some_mem s tid j hf)
    (by rw [hid, findJob_some_id s tid j hf])

theorem claimNext_findJob_self (s : JobStore) (j1 : SubmissionJob) (s1 : JobStore)
    (h : claimNext s = (some j1, s1)) : findJob s1 j1.id = some j1 := by
  obtain ⟨j0, hm, hq, he, hj1, hs1⟩ := claimNext_spec s j1 s1 h
  have hid : j1.id = j0.id := by rw [hj1]; rfl
  rw [hs1, hid, findJob_update s j0.id (fun _ => j1) (fun x hx => hid)]
  obtain ⟨x0, hx0, hxid⟩ := findJob_exists s j0 hm
  rw [hx0]
  simp [hxid]

theorem obsStep_of_update (s : JobStore) (tid : Nat)
    (f : SubmissionJob → SubmissionJob) (j : SubmissionJob)
    (hf : findJob s tid = some j)
    (hid : ∀ x, x.id = tid → (f x).id = tid)
    (hstep : stateStep j (f j)) (i : Nat) :
    obsStep (findJob s i) (findJob { s with jobs := updateJob tid f s.jobs } i) := by
  rw [findJob_update s tid f hid i]
  cases hfi : findJob s i with
  | none => trivial
  | some j0 =>
    by_cases hii : j0.id = tid
    · have hit : i = tid := by rw [← findJob_some_id s i j0 hfi, hii]
      rw [hit] at hfi
      have hj0 : j0 = j := by
        rw [hf] at hfi
        exact (Option.some.inj hfi).symm
      rw [hj0]
      show obsStep (some j) (some (if j.id = tid then f j else j))
      rw [if_pos (findJob_some_id s tid j hf)]
      exact hstep
    · show obsStep (some j0) (some (if j0.id = tid then f j0 else j0))
      rw [if_neg hii]
      exact obsStep_refl _

theorem obsStep_apply (op : StoreOp) (s : JobStore)
    (hn : (s.jobs.map (fun x => x.id)).Nodup) (i : Nat) :
    obsStep (findJob s i) (findJob (applyStoreOp op s) i) := by
  cases op with
  | tickOp n => exact obsStep_refl _
  | enqueueOp identity func args =>
    show obsStep (findJob s i) (findJob (enqueue identity func args s).2 i)
    have hres : findJob (enqueue identity func args s).2 i
        = (findJob s i).or
            ([freshJob identity func args s].find? (fun x => decide (x.id = i))) := by
      show (s.jobs ++ [freshJob identity func args s]).find?
          (fun x => decide (x.id = i)) = _
      rw [List.find?_append]
      rfl
    rw [hres]
    cases hfi : findJob s i with
    | some j0 => exact obsStep_refl _
    | none =>
      show obsStep (Option.none)
        ([freshJob identity func args s].find? (fun x => decide (x.id = i)))
      rw [List.find?_singleton]
      by_cases hii : (freshJob identity func args s).id = i
      · rw [if_pos (by simpa using hii)]
        exact ⟨rfl, rfl⟩
      · rw [if_neg (by simpa using hii)]
        trivial
  | claimOp =>
    show obsStep (findJob s i) (findJob (claimNext s).2 i)
    cases hf : s.jobs.find? (claimable s.now) with
    | none =>
      rw [claimNext_eq_none s hf]
      exact obsStep_refl _
    | some j =>
      rw [claimNext_eq_some s j hf]
      obtain ⟨hq, he, hm⟩ := claimable_of_find s j hf
      exact obsStep_of_update s j.id (fun _ => activate s.now j) j
        (findJob_eq_of_mem s j hn hm) (fun x hx => rfl)
        (Or.inr (Or.inl ⟨hq, rfl, rfl⟩)) i
  | completeResultOp tid t payload =>
    show obsStep (findJob s i)
      (findJob (exceptD s (completeWithResult tid t payload s)) i)
    cases hf : findJob s tid with
    | none =>
      have hres : exceptD s (completeWithResult tid t payload s) = s := by
        unfold completeWithResult
        simp [hf, exceptD]
      rw [hres]
      exact obsStep_refl _
    | some j =>
      cases hs : j.state with
      | active =>
        have hres : exceptD s (completeWithResult tid t payload s)
            = { s with jobs := updateJob tid (completeResultUpd t payload s.now) s.jobs } := by
          unfold completeWithResult
          simp [hf, hs, exceptD]
        rw [hres]
        exact obsStep_of_update s tid (completeResultUpd t payload s.now) j hf
          (fun x hx => hx) (Or.inr (Or.inr (Or.inr ⟨hs, Or.inl rfl, rfl⟩))) i
      | completed =>
        have hres : exceptD s (completeWithResult tid t payload s) = s := by
          unfold completeWithResult
          by_cases hc : j.txId = some t ∧ j.payload = some payload <;>
            simp [hf, hs, hc, exceptD]
        rw [hres]
        exact obsStep_refl _
      | queued =>
        have hres : exceptD s (completeWithResult tid t payload s) = s := by
          unfold completeWithResult
          simp [hf, hs, exceptD]
        rw [hres]
        exact obsStep_refl _
      | failed =>
        have hres : exceptD s (completeWithResult tid t payload s) = s := by
          unfold completeWithResult
          simp [hf, hs, exceptD]
        rw [hres]
        exact obsStep_refl _
  | completeErrorOp tid e =>
    show obsStep (findJob s i)
      (findJob (exceptD s (completeWithError tid e s)) i)
    cases hf : findJob s tid with
    | none =>
      have hres : exceptD s (completeWithError tid e s) = s := by
        unfold completeWithError
        simp [hf, exceptD]
      rw [hres]
      exact obsStep_refl _
    | some j =>
      cases hs : j.state with
      | active =>
        have hres : exceptD s (completeWithError tid e s)
            = { s with jobs := updateJob tid (completeErrorUpd e s.now) s.jobs } := by
          unfold completeWithError
          simp [hf, hs, exceptD]
        rw [hres]
        exact obsStep_of_update s tid (completeErrorUpd e s.now) j hf
          (fun x hx => hx) (Or.inr (Or.inr (Or.inr ⟨hs, Or.inr rfl, rfl⟩))) i
      | failed =>
        have hres : exceptD s (completeWithError tid e s) = s := by
          unfold completeWithError
          by_cases hc : j.lastError = some e <;> simp [hf, hs, hc, exceptD]
        rw [hres]
        exact obsStep_refl _
      | queued =>
        have hres : exceptD s (completeWithError tid e s) = s := by
          unfold completeWithError
          simp [hf, hs, exceptD]
        rw [hres]
        exact obsStep_refl _
      | completed =>
        have hres : exceptD s (completeWithError tid e s) = s := by
          unfold completeWithError
          simp [hf, hs, exceptD]
        rw [hres]
        exact obsStep_refl _
  | requeueOp tid d =>
    show obsStep (findJob s i)
      (findJob (exceptD s (requeueWithBackoff tid d s)) i)
    cases hf : findJob s tid with
    | none =>
      have hres : exceptD s (requeueWithBackoff tid d s) = s := by
        unfold requeueWithBackoff
        simp [hf, exceptD]
      rw [hres]
      exact obsStep_refl _
    | some j =>
      cases hs : j.state with
      | active =>
        have hres : exceptD s (requeueWithBackoff tid d s)
            = { s with jobs := updateJob tid (requeueUpd (s.now + d) s.now) s.jobs } := by
          unfold requeueWithBackoff
          simp [hf, hs, exceptD]
        rw [hres]
        exact obsStep_of_update s tid (requeueUpd (s.now + d) s.now) j hf
          (fun x hx => hx) (Or.inr (Or.inr (Or.inl ⟨hs, rfl, rfl⟩))) i
      | queued =>
        have hres : exceptD s (requeueWithBackoff tid d s) = s := by
          unfold requeueWithBackoff
          simp [hf, hs, exceptD]
        rw [hres]
        exact obsStep_refl _
      | completed =>
        have hres : exceptD s (requeueWithBackoff tid d s) = s := by
          unfold requeueWithBackoff
          simp [hf, hs, exceptD]
        rw [hres]
        exact obsStep_refl _
      | failed =>
        have hres : exceptD s (requeueWithBackoff tid d s) = s := by
          unfold requeueWithBackoff
          simp [hf, hs, exceptD]
        rw [hres]
        exact obsStep_refl _

theorem jobTrace_head (s0 : JobStore) (ops : List StoreOp) (i : Nat) :
    (jobTrace s0 ops i).head? = some (findJob s0 i) := by
  cases ops <;> rfl

/-- C1: for every job and every sequence of Job Store operations applied to
the store, the job's observation sequence along the trace only takes
admissible lifecycle steps: it appears as `queued` with attempt count 0 and
then follows `queued → active → (queued → active)* → {completed|failed}`;
once in a terminal state its state never changes, and exactly the
`active → queued` retry re-entries increment the attempt count. -/
theorem c1_job_lifecycle_prefix (s0 : JobStore) (ops : List StoreOp) (i : Nat)
    (h : WFStore s0) : List.Chain' obsStep (jobTrace s0 ops i) := by
  induction ops generalizing s0 with
  | nil => exact List.chain'_singleton _
  | cons op rest ih =>
    show List.Chain' obsStep (findJob s0 i :: jobTrace (applyStoreOp op s0) rest i)
    rw [List.chain'_cons']
    constructor
    · intro y hy
      rw [jobTrace_head] at hy
      simp only [Option.mem_some_iff] at hy
      subst hy
      exact obsStep_apply op s0 h.1 i
    · exact ih _ (WFStore_apply op s0 h)

/-- Witness trace for C1: enqueue, claim, requeue with backoff, clock tick,
re-claim, complete — a full retry lifecycle of job 0 from the empty store. -/
theorem c1_job_lifecycle_prefix_witness :
    WFStore emptyStore ∧
      List.Chain' obsStep (jobTrace emptyStore
        [StoreOp.enqueueOp "org1" "IssueCertificate" ["abc"], StoreOp.claimOp,
         StoreOp.requeueOp 0 5, StoreOp.tickOp 5, StoreOp.claimOp,
         StoreOp.completeResultOp 0 "tx1" "ok"] 0) :=
  ⟨⟨List.nodup_nil, fun j hj => absurd hj (List.not_mem_nil j)⟩,
   c1_job_lifecycle_prefix emptyStore _ 0
     ⟨List.nodup_nil, fun j hj => absurd hj (List.not_mem_nil j)⟩⟩

/-- C2: two successive (atomic, hence serialized) `claimNext` calls that
both return a job never return the same job; moreover the first call
claimed a job that was `queued`, returned it as `active`, and changed no
other job — so no two workers ever hold a claim on the same job. -/
theorem c2_no_double_claim (s : JobStore) (j1 j2 : SubmissionJob)
    (s1 s2 : JobStore) (hWF : WFStore s)
    (h1 : claimNext s = (some j1, s1)) (h2 : claimNext s1 = (some j2, s2)) :
    j1.id ≠ j2.id
      ∧ (findJob s j1.id).map (fun x => x.state) = some JobState.queued
      ∧ j1.state = JobState.active
      ∧ findJob s1 j1.id = some j1
      ∧ ∀ i, i ≠ j1.id → findJob s1 i = findJob s i := by
  obtain ⟨j0, hm, hq, he, hj1, hs1⟩ := claimNext_spec s j1 s1 h1
  have hid : j1.id = j0.id := by rw [hj1]; rfl
  have hfind0 : findJob s j0.id = some j0 := findJob_eq_of_mem s j0 hWF.1 hm
  refine ⟨?_, ?_, ?_, claimNext_findJob_self s j1 s1 h1, ?_⟩
  · intro heq
    obtain ⟨k0, hkm, hkq, hke, hj2, hs2e⟩ := claimNext_spec s1 j2 s2 h2
    have hk_id : j2.id = k0.id := by rw [hj2]; rfl
    rw [hs1] at hkm
    rcases mem_updateJob hkm with ⟨x, hx, hxe⟩
    by_cases hxid : x.id = j0.id
    · rw [if_pos hxid] at hxe
      rw [hxe, hj1] at hkq
      exact absurd hkq (by simp [activate])
    · rw [if_neg hxid] at hxe
      apply hxid
      rw [← hxe, ← hk_id, ← heq]
      exact hid
  · rw [hid, hfind0]
    simp [hq]
  · rw [hj1]
    rfl
  · intro i hii
    rw [hs1, findJob_update s j0.id (fun _ => j1) (fun x hx => hid) i]
    cases hfi : findJob s i with
    | none => rfl
    | some jx =>
      have hjx : jx.id = i := findJob_some_id s i jx hfi
      have hne : ¬ jx.id = j0.id := by
        intro hcon
        apply hii
        rw [← hjx, hcon, ← hid]
      show some (if jx.id = j0.id then j1 else jx) = some jx
      rw [if_neg hne]

def jA : SubmissionJob :=
  { id := 0, identity := "Org1MSP", func := "IssueCertificate", args := ["a"]
    state := .queued, attempts := 0, lastError := none, txId := none
    payload := none, enqueuedAt := 0, eligibleAt := 0, updatedAt := 0 }

def jB : SubmissionJob := { jA with id := 1, args := ["b"] }

def sTwo : JobStore := { jobs := [jA, jB], nextId := 2, now := 0 }

def jA1 : SubmissionJob := { jA with state := .active }

def jB1 : SubmissionJob := { jB with state := .active }

def s1Two : JobStore := { jobs := [jA1, jB], nextId := 2, now := 0 }

def s2Two : JobStore := { jobs := [jA1, jB1], nextId := 2, now := 0 }

/-- Witness for C2 on a concrete store holding two queued jobs: the two
successive claims return jobs 0 and 1 respectively, never the same job. -/
theorem c2_no_double_claim_witness :
    jA1.id ≠ jB1.id ∧ findJob s1Two jA1.id = some jA1 :=
  ⟨(c2_no_double_claim sTwo jA1 jB1 s1Two s2Two ⟨by decide, by decide⟩ rfl rfl).1,
   (c2_no_double_claim sTwo jA1 jB1 s1Two s2Two ⟨by decide, by decide⟩ rfl rfl).2.2.2.1⟩

def SysInv (p : RetryPolicy) (s : JobStore) : Prop :=
  WFStore s ∧ AttemptsBounded p s ∧ ErrorsOnlyWhenFailed s

theorem attemptsBounded_update (p : RetryPolicy) (s : JobStore) (tid : Nat)
    (f : SubmissionJob → SubmissionJob) (hb : AttemptsBounded p s)
    (hf : ∀ x, x ∈ s.jobs → x.id = tid → (f x).attempts ≤ p.maximumAttempts) :
    AttemptsBounded p { s with jobs := updateJob tid f s.jobs } := by
  intro y hy
  rcases mem_updateJob hy with ⟨x, hx, rfl⟩
  by_cases h : x.id = tid
  · rw [if_pos h]
    exact hf x hx h
  · rw [if_neg h]
    exact hb x hx

theorem errorsOnly_update (s : JobStore) (tid : Nat)
    (f : SubmissionJob → SubmissionJob) (hb : ErrorsOnlyWhenFailed s)
    (hf : ∀ x, x ∈ s.jobs → x.id = tid →
      ((f x).lastError = none ∨ (f x).state = JobState.failed)) :
    ErrorsOnlyWhenFailed { s with jobs := updateJob tid f s.jobs } := by
  intro y hy
  rcases mem_updateJob hy with ⟨x, hx, rfl⟩
  by_cases h : x.id = tid
  · rw [if_pos h]
    exact hf x hx h
  · rw [if_neg h]
    exact hb x hx

theorem claimNext_none_inv (s s1 : JobStore) (h : claimNext s = (none, s1)) :
    s1 = s ∧ s.jobs.find? (claimable s.now) = none := by
  unfold claimNext at h
  cases hf : s.jobs.find? (claimable s.now) with
  | none =>
    rw [hf] at h
    exact ⟨(congrArg Prod.snd h).symm, rfl⟩
  | some j =>
    rw [hf] at h
    exact absurd (congrArg Prod.fst h) (by simp)

theorem sysInv_claimNext (p : RetryPolicy) (s : JobStore) (j1 : SubmissionJob)
    (s1 : JobStore) (h : claimNext s = (some j1, s1)) (hinv : SysInv p s) :
    SysInv p s1 ∧ j1.state = JobState.active
      ∧ j1.attempts ≤ p.maximumAttempts ∧ j1.lastError = none := by
  obtain ⟨j0, hm, hq, he, hj1, hs1⟩ := claimNext_spec s j1 s1 h
  have hid : j1.id = j0.id := by rw [hj1]; rfl
  have hatt : j1.attempts = j0.attempts := by rw [hj1]; rfl
  have herr : j1.lastError = j0.lastError := by rw [hj1]; rfl
  have hstate : j1.state = JobState.active := by rw [hj1]; rfl
  have herr0 : j0.lastError = none := by
    rcases hinv.2.2 j0 hm with h0 | h0
    · exact h0
    · rw [hq] at h0
      exact absurd h0 (by decide)
  refine ⟨⟨?_, ?_, ?_⟩, hstate, ?_, ?_⟩
  · rw [hs1]
    exact WFStore_update s j0.id (fun _ => j1) (fun x hx => hid) hinv.1
  · rw [hs1]
    refine attemptsBounded_update p s j0.id (fun _ => j1) hinv.2.1 ?_
    intro x hx hxid
    show j1.attempts ≤ p.maximumAttempts
    rw [hatt]
    exact hinv.2.1 j0 hm
  · rw [hs1]
    refine errorsOnly_update s j0.id (fun _ => j1) hinv.2.2 ?_
    intro x hx hxid
    left
    show j1.lastError = none
    rw [herr]
    exact herr0
  · rw [hatt]
    exact hinv.2.1 j0 hm
  · rw [herr]
    exact herr0

theorem workerStep_eq_none (p : RetryPolicy) (out : SubmitOutcome) (jitter : Nat)
    (s : JobStore) (h : s.jobs.find? (claimable s.now) = none) :
    workerStep p out jitter s = s := by
  unfold workerStep
  rw [claimNext_eq_none s h]

theorem workerStep_success (p : RetryPolicy) (t payload : String) (jitter : Nat)
    (s s1 : JobStore) (j : SubmissionJob) (hclaim : claimNext s = (some j, s1)) :
    workerStep p (.success t payload) jitter s
      = exceptD s1 (completeWithResult j.id t payload s1) := by
  unfold workerStep
  rw [hclaim]

theorem workerStep_retry (p : RetryPolicy) (out : SubmitOutcome) (jitter : Nat)
    (s s1 : JobStore) (j : SubmissionJob) (hclaim : claimNext s = (some j, s1))
    (hr : isRetryable out = true) (hlt : j.attempts < p.maximumAttempts) :
    workerStep p out jitter s
      = exceptD s1 (requeueWithBackoff j.id
          (backoffDelay p j.attempts + min jitter p.jitterBound) s1) := by
  cases out with
  | success t payload => simp [isRetryable] at hr
  | chaincodeRejected => simp [isRetryable] at hr
  | endorsementConflict =>
    unfold workerStep
    rw [hclaim]
    exact if_pos (by simp [isRetryable, hlt])
  | orderingTimeout =>
    unfold workerStep
    rw [hclaim]
    exact if_pos (by simp [isRetryable, hlt])
  | connectivityError =>
    unfold workerStep
    rw [hclaim]
    exact if_pos (by simp [isRetryable, hlt])

theorem workerStep_fail (p : RetryPolicy) (out : SubmitOutcome) (jitter : Nat)
    (s s1 : JobStore) (j : SubmissionJob) (hclaim : claimNext s = (some j, s1))
    (hns : ∀ t payload, out ≠ SubmitOutcome.success t payload)
    (hcond : (isRetryable out && decide (j.attempts < p.maximumAttempts)) = false) :
    workerStep p out jitter s
      = exceptD s1 (completeWithError j.id (classifyError out) s1) := by
  have hneg : ¬ ((isRetryable out && decide (j.attempts < p.maximumAttempts)) = true) := by
    intro hcon
    rw [hcon] at hcond
    exact Bool.noConfusion hcond
  cases out with
  | success t payload => exact absurd rfl (hns t payload)
  | chaincodeRejected =>
    unfold workerStep
    rw [hclaim]
    exact if_neg hneg
  | endorsementConflict =>
    unfold workerStep
    rw [hclaim]
    exact if_neg hneg
  | orderingTimeout =>
    unfold workerStep
    rw [hclaim]
    exact if_neg hneg
  | connectivityError =>
    unfold workerStep
    rw [hclaim]
    exact if_neg hneg

theorem completeWithResult_findJob (s1 : JobStore) (j : SubmissionJob)
    (t payload : String)
    (hself : findJob s1 j.id = some j) (hact : j.state = JobState.active) :
    findJob (exceptD s1 (completeWithResult j.id t payload s1)) j.id
      = some (completeResultUpd t payload s1.now j) := by
  have hres : exceptD s1 (completeWithResult j.id t payload s1)
      = { s1 with jobs := updateJob j.id (completeResultUpd t payload s1.now) s1.jobs } := by
    unfold completeWithResult
    simp [hself, hact, exceptD]
  rw [hres, findJob_update s1 j.id (completeResultUpd t payload s1.now) (fun x hx => hx) j.id,
    hself]
  show some (if j.id = j.id then completeResultUpd t payload s1.now j else j)
      = some (completeResultUpd t payload s1.now j)
  rw [if_pos rfl]

theorem completeWithError_findJob (s1 : JobStore) (j : SubmissionJob) (e : String)
    (hself : findJob s1 j.id = some j) (hact : j.state = JobState.active) :
    findJob (exceptD s1 (completeWithError j.id e s1)) j.id
      = some (completeErrorUpd e s1.now j) := by
  have hres : exceptD s1 (completeWithError j.id e s1)
      = { s1 with jobs := updateJob j.id (completeErrorUpd e s1.now) s1.jobs } := by
    unfold completeWithError
    simp [hself, hact, exceptD]
  rw [hres, findJob_update s1 j.id (completeErrorUpd e s1.now) (fun x hx => hx) j.id, hself]
  show some (if j.id = j.id then completeErrorUpd e s1.now j else j)
      = some (completeErrorUpd e s1.now j)
  rw [if_pos rfl]

theorem requeueWithBackoff_findJob (s1 : JobStore) (j : SubmissionJob) (d : Nat)
    (hself : findJob s1 j.id = some j) (hact : j.state = JobState.active) :
    findJob (exceptD s1 (requeueWithBackoff j.id d s1)) j.id
      = some (requeueUpd (s1.now + d) s1.now j) := by
  have hres : exceptD s1 (requeueWithBackoff j.id d s1)
      = { s1 with jobs := updateJob j.id (requeueUpd (s1.now + d) s1.now) s1.jobs } := by
    unfold requeueWithBackoff
    simp [hself, hact, exceptD]
  rw [hres, findJob_update s1 j.id (requeueUpd (s1.now + d) s1.now) (fun x hx => hx) j.id,
    hself]
  show some (if j.id = j.id then requeueUpd (s1.now + d) s1.now j else j)
      = some (requeueUpd (s1.now + d) s1.now j)
  rw [if_pos rfl]

theorem sysInv_complete_result (p : RetryPolicy) (s1 : JobStore)
    (j : SubmissionJob) (t payload : String) (hinv1 : SysInv p s1)
    (hself : findJob s1 j.id = some j) (hact : j.state = JobState.active)
    (herr : j.lastError = none) :
    SysInv p (exceptD s1 (completeWithResult j.id t payload s1)) := by
  have hres : exceptD s1 (completeWithResult j.id t payload s1)
      = { s1 with jobs := updateJob j.id (completeResultUpd t payload s1.now) s1.jobs } := by
    unfold completeWithResult
    simp [hself, hact, exceptD]
  rw [hres]
  refine ⟨WFStore_update s1 j.id _ (fun x hx => hx) hinv1.1,
    attemptsBounded_update p s1 j.id _ hinv1.2.1 ?_,
    errorsOnly_update s1 j.id _ hinv1.2.2 ?_⟩
  · intro x hx hxid
    show x.attempts ≤ p.maximumAttempts
    exact hinv1.2.1 x hx
  · intro x hx hxid
    have hxj : x = j := entries_eq_of_findJob s1 j.id j hinv1.1.1 hself x hx hxid
    left
    show x.lastError = none
    rw [hxj]
    exact herr

theorem sysInv_complete_error (p : RetryPolicy) (s1 : JobStore)
    (j : SubmissionJob) (e : String) (hinv1 : SysInv p s1)
    (hself : findJob s1 j.id = some j) (hact : j.state = JobState.active) :
    SysInv p (exceptD s1 (completeWithError j.id e s1)) := by
  have hres : exceptD s1 (completeWithError j.id e s1)
      = { s1 with jobs := updateJob j.id (completeErrorUpd e s1.now) s1.jobs } := by
    unfold completeWithError
    simp [hself, hact, exceptD]
  rw [hres]
  refine ⟨WFStore_update s1 j.id _ (fun x hx => hx) hinv1.1,
    attemptsBounded_update p s1 j.id _ hinv1.2.1 ?_,
    errorsOnly_update s1 j.id _ hinv1.2.2 ?_⟩
  · intro x hx hxid
    show x.attempts ≤ p.maximumAttempts
    exact hinv1.2.1 x hx
  · intro x hx hxid
    exact Or.inr rfl

theorem sysInv_requeue (p : RetryPolicy) (s1 : JobStore) (j : SubmissionJob)
    (d : Nat) (hinv1 : SysInv p s1) (hself : findJob s1 j.id = some j)
    (hact : j.state = JobState.active)
    (hlt : j.attempts < p.maximumAttempts) (herr : j.lastError = none) :
    SysInv p (exceptD s1 (requeueWithBackoff j.id d s1)) := by
  have hres : exceptD s1 (requeueWithBackoff j.id d s1)
      = { s1 with jobs := updateJob j.id (requeueUpd (s1.now + d) s1.now) s1.jobs } := by
    unfold requeueWithBackoff
    simp [hself, hact, exceptD]
  rw [hres]
  refine ⟨WFStore_update s1 j.id _ (fun x hx => hx) hinv1.1,
    attemptsBounded_update p s1 j.id _ hinv1.2.1 ?_,
    errorsOnly_update s1 j.id _ hinv1.2.2 ?_⟩
  · intro x hx hxid
    have hxj : x = j := entries_eq_of_findJob s1 j.id j hinv1.1.1 hself x hx hxid
    show x.attempts + 1 ≤ p.maximumAttempts
    rw [hxj]
    exact hlt
  · intro x hx hxid
    have hxj : x = j := entries_eq_of_findJob s1 j.id j hinv1.1.1 hself x hx hxid
    left
    show x.lastError = none
    rw [hxj]
    exact herr

theorem sysInv_workerStep (p : RetryPolicy) (out : SubmitOutcome) (jitter : Nat)
    (s : JobStore) (h : SysInv p s) : SysInv p (workerStep p out jitter s) := by
  cases hclaim : claimNext s with
  | mk o s1 =>
    cases o with
    | none =>
      obtain ⟨rfl, hf⟩ := claimNext_none_inv s s1 hclaim
      rw [workerStep_eq_none p out jitter s1 hf]
      exact h
    | some j =>
      obtain ⟨hinv1, hact, hatt, herr⟩ := sysInv_claimNext p s j s1 hclaim h
      have hself := claimNext_findJob_self s j s1 hclaim
      cases out with
      | success t payload =>
        rw [workerStep_success p t payload jitter s s1 j hclaim]
        exact sysInv_complete_result p s1 j t payload hinv1 hself hact herr
      | chaincodeRejected =>
        rw [workerStep_fail p SubmitOutcome.chaincodeRejected jitter s s1 j hclaim
          (fun t payload hcon => SubmitOutcome.noConfusion hcon) rfl]
        exact sysInv_complete_error p s1 j _ hinv1 hself hact
      | endorsementConflict =>
        by_cases hlt : j.attempts < p.maximumAttempts
        · rw [workerStep_retry p SubmitOutcome.endorsementConflict jitter s s1 j
            hclaim rfl hlt]
          exact sysInv_requeue p s1 j _ hinv1 hself hact hlt herr
        · rw [workerStep_fail p SubmitOutcome.endorsementConflict jitter s s1 j hclaim
            (fun t payload hcon => SubmitOutcome.noConfusion hcon) (by simp [isRetryable, hlt])]
          exact sysInv_complete_error p s1 j _ hinv1 hself hact
      | orderingTimeout =>
        by_cases hlt : j.attempts < p.maximumAttempts
        · rw [workerStep_retry p SubmitOutcome.orderingTimeout jitter s s1 j
            hclaim rfl hlt]
          exact sysInv_requeue p s1 j _ hinv1 hself hact hlt herr
        · rw [workerStep_fail p SubmitOutcome.orderingTimeout jitter s s1 j hclaim
            (fun t payload hcon => SubmitOutcome.noConfusion hcon) (by simp [isRetryable, hlt])]
          exact sysInv_complete_error p s1 j _ hinv1 hself hact
      | connectivityError =>
        by_cases hlt : j.attempts < p.maximumAttempts
        · rw [workerStep_retry p SubmitOutcome.connectivityError jitter s s1 j
            hclaim rfl hlt]
          exact sysInv_requeue p s1 j _ hinv1 hself hact hlt herr
        · rw [workerStep_fail p SubmitOutcome.connectivityError jitter s s1 j hclaim
            (fun t payload hcon => SubmitOutcome.noConfusion hcon) (by simp [isRetryable, hlt])]
          exact sysInv_complete_error p s1 j _ hinv1 hself hact

theorem sysInv_empty (p : RetryPolicy) : SysInv p emptyStore :=
  ⟨⟨List.nodup_nil, fun j hj => absurd hj (List.not_mem_nil j)⟩,
   fun j hj => absurd hj (List.not_mem_nil j),
   fun j hj => absurd hj (List.not_mem_nil j)⟩

theorem sysInv_applySysOp (p : RetryPolicy) (op : SysOp) (s : JobStore)
    (h : SysInv p s) : SysInv p (applySysOp p op s) := by
  cases op with
  | enq identity func args =>
    show SysInv p (enqueue identity func args s).2
    refine ⟨WFStore_enqueue identity func args s h.1, ?_, ?_⟩
    · intro y hy
      rcases List.mem_append.mp hy with hy | hy
      · exact h.2.1 y hy
      · simp only [List.mem_singleton] at hy
        rw [hy]
        exact Nat.zero_le _
    · intro y hy
      rcases List.mem_append.mp hy with hy | hy
      · exact h.2.2 y hy
      · simp only [List.mem_singleton] at hy
        rw [hy]
        exact Or.inl rfl
  | work out jitter => exact sysInv_workerStep p out jitter s h
  | tick n => exact h

theorem sysInv_runSys (p : RetryPolicy) (ops : List SysOp) :
    SysInv p (runSys p ops) := by
  suffices hgen : ∀ (s : JobStore), SysInv p s →
      SysInv p (ops.foldl (fun s op => applySysOp p op s) s) from
    hgen emptyStore (sysInv_empty p)
  induction ops with
  | nil => exact fun s hs => hs
  | cons op rest ih => exact fun s hs => ih _ (sysInv_applySysOp p op s hs)

/-- C3: in every reachable state of the system the attempt count of every
job is bounded by `RetryPolicy.maximumAttempts`; and when a claimed job
fails a retryable attempt with its attempts exhausted, it is marked
`failed` with attempt count exactly `maximumAttempts` and the classified
error detail of the last attempt retained. -/
theorem c3_attempts_bounded_and_exhaustion (p : RetryPolicy) (ops : List SysOp) :
    AttemptsBounded p (runSys p ops) ∧
    (∀ (out : SubmitOutcome) (jitter : Nat) (j : SubmissionJob) (s1 : JobStore),
      claimNext (runSys p ops) = (some j, s1) → isRetryable out = true →
      p.maximumAttempts ≤ j.attempts →
      (findJob (workerStep p out jitter (runSys p ops)) j.id).map
          (fun x => (x.state, x.attempts, x.lastError))
        = some (JobState.failed, p.maximumAttempts, some (classifyError out))) := by
  have hinv : SysInv p (runSys p ops) := sysInv_runSys p ops
  refine ⟨hinv.2.1, ?_⟩
  intro out jitter j s1 hclaim hr hge
  obtain ⟨hinv1, hact, hatt, herr⟩ := sysInv_claimNext p (runSys p ops) j s1 hclaim hinv
  have hself := claimNext_findJob_self (runSys p ops) j s1 hclaim
  have hlt : ¬ j.attempts < p.maximumAttempts := Nat.not_lt.mpr hge
  have heq : j.attempts = p.maximumAttempts := le_antisymm hatt hge
  have hns : ∀ t payload, out ≠ SubmitOutcome.success t payload := by
    intro t payload hcon
    rw [hcon] at hr
    simp [isRetryable] at hr
  have hcond : (isRetryable out && decide (j.attempts < p.maximumAttempts)) = false := by
    simp [hlt]
  rw [workerStep_fail p out jitter (runSys p ops) s1 j hclaim hns hcond]
  rw [completeWithError_findJob s1 j (classifyError out) hself hact]
  show some ((JobState.failed, j.attempts, some (classifyError out))) = _
  rw [heq]

/-- C4: a terminal-class submit error (`ChaincodeRejected`) marks the
claimed job `failed` at once, without touching its attempt count, storing
the classified error detail; a retryable error below the attempt maximum
requeues the job and leaves no error visible in the job's external status
projection. -/
theorem c4_terminal_vs_retryable (p : RetryPolicy) (ops : List SysOp)
    (out : SubmitOutcome) (jitter : Nat) (j : SubmissionJob) (s1 : JobStore)
    (hclaim : claimNext (runSys p ops) = (some j, s1)) :
    (isTerminalError out = true →
      (statusOf (workerStep p out jitter (runSys p ops)) j.id).map
          (fun v => (v.state, v.attempts, v.errorDetail))
        = some (JobState.failed, j.attempts, some (classifyError out))) ∧
    (isRetryable out = true → j.attempts < p.maximumAttempts →
      (statusOf (workerStep p out jitter (runSys p ops)) j.id).map
          (fun v => (v.state, v.errorDetail))
        = some (JobState.queued, none)) := by
  have hinv := sysInv_runSys p ops
  obtain ⟨hinv1, hact, hatt, herr⟩ := sysInv_claimNext p (runSys p ops) j s1 hclaim hinv
  have hself := claimNext_findJob_self (runSys p ops) j s1 hclaim
  constructor
  · intro hterm
    have hns : ∀ t payload, out ≠ SubmitOutcome.success t payload := by
      intro t payload hcon
      rw [hcon] at hterm
      simp [isTerminalError] at hterm
    have hcond : (isRetryable out && decide (j.attempts < p.maximumAttempts)) = false := by
      cases out with
      | chaincodeRejected => rfl
      | success t payload => simp [isTerminalError] at hterm
      | endorsementConflict => simp [isTerminalError] at hterm
      | orderingTimeout => simp [isTerminalError] at hterm
      | connectivityError => simp [isTerminalError] at hterm
    rw [workerStep_fail p out jitter (runSys p ops) s1 j hclaim hns hcond]
    unfold statusOf
    rw [completeWithError_findJob s1 j (classifyError out) hself hact]
    rfl
  · intro hr hlt
    rw [workerStep_retry p out jitter (runSys p ops) s1 j hclaim hr hlt]
    unfold statusOf
    rw [requeueWithBackoff_findJob s1 j
      (backoffDelay p j.attempts + min jitter p.jitterBound) hself hact]
    show some ((JobState.queued, j.lastError)) = some (JobState.queued, none)
    rw [herr]

def pW : RetryPolicy :=
  { maximumAttempts := 1, baseDelay := 10, multiplier := 2, cap := 100
    jitterBound := 0 }

def opsW : List SysOp :=
  [SysOp.enq "org1" "IssueCertificate" ["h"],
   SysOp.work SubmitOutcome.endorsementConflict 0, SysOp.tick 20]

def jW : SubmissionJob :=
  { id := 0, identity := "org1", func := "IssueCertificate", args := ["h"]
    state := .active, attempts := 1, lastError := none, txId := none
    payload := none, enqueuedAt := 0, eligibleAt := 10, updatedAt := 20 }

def s1W : JobStore := { jobs := [jW], nextId := 1, now := 20 }

/-- Witness for C3: with maximum 1 attempt, the job requeued after one
retryable failure is claimed again with attempts = 1; the next retryable
failure exhausts it, leaving it failed with attempts = maximumAttempts and
the conflict error retained. -/
theorem c3_witness :
    AttemptsBounded pW (runSys pW opsW) ∧
    (findJob (workerStep pW SubmitOutcome.endorsementConflict 0 (runSys pW opsW)) jW.id).map
        (fun x => (x.state, x.attempts, x.lastError))
      = some (JobState.failed, pW.maximumAttempts, some "EndorsementConflict") :=
  ⟨(c3_attempts_bounded_and_exhaustion pW opsW).1,
   (c3_attempts_bounded_and_exhaustion pW opsW).2 SubmitOutcome.endorsementConflict
     0 jW s1W rfl rfl (by decide)⟩

def pW4 : RetryPolicy :=
  { maximumAttempts := 3, baseDelay := 10, multiplier := 2, cap := 100
    jitterBound := 5 }

def opsW4 : List SysOp := [SysOp.enq "org2" "IssueCertificate" ["k"]]

def jW4 : SubmissionJob :=
  { id := 0, identity := "org2", func := "IssueCertificate", args := ["k"]
    state := .active, attempts := 0, lastError := none, txId := none
    payload := none, enqueuedAt := 0, eligibleAt := 0, updatedAt := 0 }

def s1W4 : JobStore := { jobs := [jW4], nextId := 1, now := 0 }

/-- Witness for C4: a freshly enqueued and claimed job is failed at once
with the ChaincodeRejected detail on a terminal error, while an
orderingTimeout below the attempt maximum requeues it with no visible
error in its status. -/
theorem c4_witness :
    (statusOf (workerStep pW4 SubmitOutcome.chaincodeRejected 0 (runSys pW4 opsW4)) jW4.id).map
        (fun v => (v.state, v.attempts, v.errorDetail))
      = some (JobState.failed, jW4.attempts, some "ChaincodeRejected") ∧
    (statusOf (workerStep pW4 SubmitOutcome.orderingTimeout 2 (runSys pW4 opsW4)) jW4.id).map
        (fun v => (v.state, v.errorDetail))
      = some (JobState.queued, none) :=
  ⟨(c4_terminal_vs_retryable pW4 opsW4 SubmitOutcome.chaincodeRejected 0 jW4 s1W4 rfl).1 rfl,
   (c4_terminal_vs_retryable pW4 opsW4 SubmitOutcome.orderingTimeout 2 jW4 s1W4 rfl).2 rfl (by decide)⟩

/-- C5: for a fixed RetryPolicy (with a backoff multiplier of at least 1,
as exponential backoff requires), the computed backoff delay is
non-decreasing in the attempt count, never exceeds the configured cap, and
equals `base * multiplier ^ attempt` clamped to the cap, before jitter is
added. -/
theorem c5_backoff_monotone_capped (p : RetryPolicy) (hm : 1 ≤ p.multiplier) :
    (∀ a1 a2, a1 ≤ a2 → backoffDelay p a1 ≤ backoffDelay p a2) ∧
    (∀ a, backoffDelay p a ≤ p.cap) ∧
    (∀ a, backoffDelay p a = min (p.baseDelay * p.multiplier ^ a) p.cap) := by
  refine ⟨?_, ?_, fun a => rfl⟩
  · intro a1 a2 h
    unfold backoffDelay
    exact min_le_min (Nat.mul_le_mul_left p.baseDelay
      (Nat.pow_le_pow_right hm h)) le_rfl
  · intro a
    exact min_le_right _ _

/-- Witness for C5 at the concrete policy (max 5, base 10, multiplier 3,
cap 100, jitter 7) and attempts 1 ≤ 2. -/
theorem c5_backoff_witness :
    1 ≤ (3 : Nat) ∧
      backoffDelay { maximumAttempts := 5, baseDelay := 10, multiplier := 3, cap := 100, jitterBound := 7 } 1
        ≤ backoffDelay { maximumAttempts := 5, baseDelay := 10, multiplier := 3, cap := 100, jitterBound := 7 } 2 :=
  ⟨by decide,
   (c5_backoff_monotone_capped
     { maximumAttempts := 5, baseDelay := 10, multiplier := 3, cap := 100, jitterBound := 7 }
     (by decide)).1 1 2 (by decide)⟩

/-- C6: `completeWithResult` and `completeWithError` are idempotent: when a
first call succeeds, calling the same operation again with identical
arguments on the resulting store is accepted (no error is signalled) and
returns the store unchanged. -/
theorem c6_complete_idempotent (s : JobStore) (i : Nat) (t payload e : String) :
    (∀ s1, completeWithResult i t payload s = .ok s1 →
      completeWithResult i t payload s1 = .ok s1) ∧
    (∀ s2, completeWithError i e s = .ok s2 →
      completeWithError i e s2 = .ok s2) := by
  constructor
  · intro s1 h
    cases hf : findJob s i with
    | none =>
      rw [show completeWithResult i t payload s = .error .jobNotFound from by
        unfold completeWithResult
        simp [hf]] at h
      exact absurd h (by simp)
    | some j =>
      cases hs : j.state with
      | active =>
        have hres : completeWithResult i t payload s
            = .ok { s with jobs := updateJob i (completeResultUpd t payload s.now) s.jobs } := by
          unfold completeWithResult
          simp [hf, hs]
        rw [hres] at h
        have hs1 : s1 = { s with jobs := updateJob i (completeResultUpd t payload s.now) s.jobs } :=
          (Except.ok.inj h).symm
        have hjid : j.id = i := findJob_some_id s i j hf
        have hfind1 : findJob s1 i = some (completeResultUpd t payload s.now j) := by
          rw [hs1, findJob_update s i (completeResultUpd t payload s.now) (fun x hx => hx) i,
            hf]
          show some (if j.id = i then completeResultUpd t payload s.now j else j)
              = some (completeResultUpd t payload s.now j)
          rw [if_pos hjid]
        unfold completeWithResult
        simp [hfind1, completeResultUpd]
      | completed =>
        by_cases hc : j.txId = some t ∧ j.payload = some payload
        · have hres : completeWithResult i t payload s = .ok s := by
            unfold completeWithResult
            simp [hf, hs, hc]
          rw [hres] at h
          have hs1 : s1 = s := (Except.ok.inj h).symm
          rw [hs1, hres]
        · have hres : completeWithResult i t payload s = .error .invalidTransition := by
            unfold completeWithResult
            simp [hf, hs, hc]
          rw [hres] at h
          exact absurd h (by simp)
      | queued =>
        rw [show completeWithResult i t payload s = .error .invalidTransition from by
          unfold completeWithResult
          simp [hf, hs]] at h
        exact absurd h (by simp)
      | failed =>
        rw [show completeWithResult i t payload s = .error .invalidTransition from by
          unfold completeWithResult
          simp [hf, hs]] at h
        exact absurd h (by simp)
  · intro s2 h
    cases hf : findJob s i with
    | none =>
      rw [show completeWithError i e s = .error .jobNotFound from by
        unfold completeWithError
        simp [hf]] at h
      exact absurd h (by simp)
    | some j =>
      cases hs : j.state with
      | active =>
        have hres : completeWithError i e s
            = .ok { s with jobs := updateJob i (completeErrorUpd e s.now) s.jobs } := by
          unfold completeWithError
          simp [hf, hs]
        rw [hres] at h
        have hs2 : s2 = { s with jobs := updateJob i (completeErrorUpd e s.now) s.jobs } :=
          (Except.ok.inj h).symm
        have hjid : j.id = i := findJob_some_id s i j hf
        have hfind2 : findJob s2 i = some (completeErrorUpd e s.now j) := by
          rw [hs2, findJob_update s i (completeErrorUpd e s.now) (fun x hx => hx) i, hf]
          show some (if j.id = i then completeErrorUpd e s.now j else j)
              = some (completeErrorUpd e s.now j)
          rw [if_pos hjid]
        unfold completeWithError
        simp [hfind2, completeErrorUpd]
      | failed =>
        by_cases hc : j.lastError = some e
        · have hres : completeWithError i e s = .ok s := by
            unfold completeWithError
            simp [hf, hs, hc]
          rw [hres] at h
          have hs2 : s2 = s := (Except.ok.inj h).symm
          rw [hs2, hres]
        · have hres : completeWithError i e s = .error .invalidTransition := by
            unfold completeWithError
            simp [hf, hs, hc]
          rw [hres] at h
          exact absurd h (by simp)
      | queued =>
        rw [show completeWithError i e s = .error .invalidTransition from by
          unfold completeWithError
          simp [hf, hs]] at h
        exact absurd h (by simp)
      | completed =>
        rw [show completeWithError i e s = .error .invalidTransition from by
          unfold completeWithError
          simp [hf, hs]] at h
        exact absurd h (by simp)

def jAct : SubmissionJob :=
  { id := 0, identity := "org1", func := "IssueCertificate", args := ["x"]
    state := .active, attempts := 1, lastError := none, txId := none
    payload := none, enqueuedAt := 0, eligibleAt := 0, updatedAt := 3 }

def sAct : JobStore := { jobs := [jAct], nextId := 1, now := 7 }

def jDone : SubmissionJob :=
  { jAct with state := .completed, txId := some "tx", payload := some "pl", updatedAt := 7 }

def jFail : SubmissionJob :=
  { jAct with state := .failed, lastError := some "ChaincodeRejected", updatedAt := 7 }

def sDone : JobStore := { jobs := [jDone], nextId := 1, now := 7 }

def sFail : JobStore := { jobs := [jFail], nextId := 1, now := 7 }

/-- Witness for C6 on a store with one active job: after completing it
(with a result, resp. with an error), repeating the identical call is
accepted and leaves the store unchanged. -/
theorem c6_witness :
    completeWithResult 0 "tx" "pl" sDone = .ok sDone ∧
    completeWithError 0 "ChaincodeRejected" sFail = .ok sFail :=
  ⟨(c6_complete_idempotent sAct 0 "tx" "pl" "ChaincodeRejected").1 sDone rfl,
   (c6_complete_idempotent sAct 0 "tx" "pl" "ChaincodeRejected").2 sFail rfl⟩

end CertPipeline

namespace CertRouter

open CertPipeline

/-- C7: the read endpoints of `src/assets.router.ts` (get-all, read by
certificate hash, existence check) leave the application state — in
particular the submit job queue — unchanged: they only consult the
evaluate oracle and never enqueue a job. -/
theorem c7_reads_preserve_queue (parse : String → Option Json) (ev : EvalOutcome)
    (st : AppLocals) :
    (getAllAssetsHandler parse ev st).2 = st ∧
    (readCertificateHandler parse ev st).2 = st ∧
    (certificateOptionsHandler ev st).2 = st := by
  refine ⟨?_, ?_, ?_⟩
  · cases ev with
    | ok data =>
      show (if data.length > 0 then
          (match parse data with
           | some assets => (HttpResp.okJson assets, st)
           | none => (HttpResp.internalError, st))
        else (HttpResp.okJson (Json.arr []), st)).2 = st
      by_cases h : data.length > 0
      · rw [if_pos h]
        cases parse data <;> rfl
      · rw [if_neg h]
    | assetNotFound => rfl
    | failure => rfl
  · cases ev with
    | ok data =>
      show (match parse data with
            | some certificate => (HttpResp.okJson certificate, st)
            | none => (HttpResp.internalError, st)).2 = st
      cases parse data <;> rfl
    | assetNotFound => rfl
    | failure => rfl
  · cases ev with
    | ok data =>
      show (if data = "true" then
          (HttpResp.okAllow "DELETE,GET,OPTIONS,PATCH,PUT", st)
        else (HttpResp.notFound, st)).2 = st
      by_cases h : data = "true"
      · rw [if_pos h]
      · rw [if_neg h]
    | assetNotFound => rfl
    | failure => rfl

/-- C8: POST `/` answers 400 Bad Request (reason VALIDATION_ERROR) and
enqueues nothing whenever the body fails the declared express-validator
chain; when validation passes it calls `addSubmitTransactionJob`, which
appends the IssueCertificate job with the nine field values in order, and
answers 202 Accepted with the fresh job id. -/
theorem c8_create_validation_gate (mspId : String) (st : AppLocals) :
    (∀ b : Option ReqBody, validateCreateBody b = false →
      createCertificateHandler mspId b st = (HttpResp.badRequestValidation, st)) ∧
    (∀ fields : ReqBody, validateCreateBody (some fields) = true →
      createCertificateHandler mspId (some fields) st =
        (HttpResp.accepted (toString st.nextJobId),
         { jobq := st.jobq ++
             [{ mspId := mspId
                transactionName := "IssueCertificate"
                transactionArgs := certArgs fields }]
           nextJobId := st.nextJobId + 1 })) := by
  constructor
  · intro b hb
    cases b with
    | none => rfl
    | some fields =>
      unfold createCertificateHandler
      exact if_neg (by simp [hb])
  · intro fields hf
    unfold createCertificateHandler
    exact if_pos hf

/-- C9: the read-certificate endpoint answers 404 exactly when the
evaluate call throws `AssetNotFoundError`; any other evaluate failure, and
a JSON-parse failure of the returned bytes, answer 500; a successful parse
answers 200 with the parsed certificate. -/
theorem c9_read_certificate_statuses (parse : String → Option Json)
    (ev : EvalOutcome) (st : AppLocals) :
    ((readCertificateHandler parse ev st).1 = HttpResp.notFound
        ↔ ev = EvalOutcome.assetNotFound) ∧
    (ev = EvalOutcome.failure →
      (readCertificateHandler parse ev st).1 = HttpResp.internalError) ∧
    (∀ data, ev = EvalOutcome.ok data → parse data = none →
      (readCertificateHandler parse ev st).1 = HttpResp.internalError) ∧
    (∀ data c, ev = EvalOutcome.ok data → parse data = some c →
      (readCertificateHandler parse ev st).1 = HttpResp.okJson c) := by
  cases ev with
  | assetNotFound =>
    refine ⟨⟨fun h => rfl, fun h => rfl⟩, ?_, ?_, ?_⟩
    · intro h
      exact EvalOutcome.noConfusion h
    · intro data h
      exact EvalOutcome.noConfusion h
    · intro data c h
      exact EvalOutcome.noConfusion h
  | failure =>
    refine ⟨⟨fun h => ?_, fun h => EvalOutcome.noConfusion h⟩, fun h => rfl, ?_, ?_⟩
    · exact HttpResp.noConfusion h
    · intro data h
      exact EvalOutcome.noConfusion h
    · intro data c h
      exact EvalOutcome.noConfusion h
  | ok data =>
    cases hp : parse data with
    | none =>
      have hv : readCertificateHandler parse (EvalOutcome.ok data) st
          = (HttpResp.internalError, st) := by
        unfold readCertificateHandler
        simp [hp]
      refine ⟨⟨fun h => ?_, fun h => EvalOutcome.noConfusion h⟩,
        fun h => EvalOutcome.noConfusion h, ?_, ?_⟩
      · rw [hv] at h
        exact HttpResp.noConfusion h
      · intro d hd hpd
        rw [hv]
      · intro d c hd hpc
        have hdd : data = d := EvalOutcome.ok.inj hd
        rw [← hdd, hp] at hpc
        exact Option.noConfusion hpc
    | some c0 =>
      have hv : readCertificateHandler parse (EvalOutcome.ok data) st
          = (HttpResp.okJson c0, st) := by
        unfold readCertificateHandler
        simp [hp]
      refine ⟨⟨fun h => ?_, fun h => EvalOutcome.noConfusion h⟩,
        fun h => EvalOutcome.noConfusion h, ?_, ?_⟩
      · rw [hv] at h
        exact HttpResp.noConfusion h
      · intro d hd hpd
        have hdd : data = d := EvalOutcome.ok.inj hd
        rw [← hdd, hp] at hpd
        exact Option.noConfusion hpd
      · intro d c hd hpc
        have hdd : data = d := EvalOutcome.ok.inj hd
        rw [← hdd, hp] at hpc
        have hcc : c0 = c := Option.some.inj hpc
        rw [hv, ← hcc]

/-- C10: when the evaluate call returns an empty byte buffer, the get-all
endpoint answers 200 OK with the empty JSON array, without attempting to
parse the empty payload. -/
theorem c10_get_all_empty_buffer (parse : String → Option Json) (st : AppLocals) :
    getAllAssetsHandler parse (EvalOutcome.ok "") st
      = (HttpResp.okJson (Json.arr []), st) := by
  unfold getAllAssetsHandler
  exact if_neg (by decide)

def stEmpty : AppLocals := { jobq := [], nextJobId := 0 }

def goodBody : ReqBody :=
  [("CertificateHash", JVal.jstr "abc"), ("CertificateDate", JVal.jstr "2020-01-01"),
   ("StudentId", JVal.jstr "42"), ("StudentName", JVal.jstr "Alice"),
   ("StudentCPF", JVal.jstr "123"), ("CourseName", JVal.jstr "Math"),
   ("CourseHours", JVal.jnum 40), ("CourseCompletionDate", JVal.jstr "2020-02-01"),
   ("InstitutionName", JVal.jstr "Uni")]

/-- Witness for C8: a non-object body is rejected with 400 and no enqueue,
while a fully valid certificate body is enqueued and answered 202 with
job id "0". -/
theorem c8_witness :
    createCertificateHandler "Org1MSP" none stEmpty
        = (HttpResp.badRequestValidation, stEmpty) ∧
    createCertificateHandler "Org1MSP" (some goodBody) stEmpty
        = (HttpResp.accepted "0",
           { jobq := [{ mspId := "Org1MSP"
                        transactionName := "IssueCertificate"
                        transactionArgs := certArgs goodBody }]
             nextJobId := 1 }) :=
  ⟨(c8_create_validation_gate "Org1MSP" stEmpty).1 none rfl,
   (c8_create_validation_gate "Org1MSP" stEmpty).2 goodBody (by decide)⟩

/-- Witness for C9: an `AssetNotFoundError` from evaluate yields 404, and a
successful evaluate-and-parse yields 200 with the parsed value. -/
theorem c9_witness :
    (readCertificateHandler (fun _ => none) EvalOutcome.assetNotFound stEmpty).1
        = HttpResp.notFound ∧
    (readCertificateHandler (fun _ => some (Json.arr []))
        (EvalOutcome.ok "[]") stEmpty).1 = HttpResp.okJson (Json.arr []) :=
  ⟨(c9_read_certificate_statuses (fun _ => none) EvalOutcome.assetNotFound stEmpty).1.mpr rfl,
   (c9_read_certificate_statuses (fun _ => some (Json.arr []))
     (EvalOutcome.ok "[]") stEmpty).2.2.2 "[]" (Json.arr []) rfl rfl⟩

end CertRouter
